import Mathlib

/-!
Verification of the modfetch download pipeline.

This file gives a shallow embedding, in Lean, of the core of the
`modfetch` repository (Modrinth API client, mod resolver, dependency
resolver, version/inclusion matcher, file verifier, download queue and
manager, and the orchestrator glue), and proves or refutes the frozen
claims about it.  Every definition is translated directly from the
Python source:

* `src/modfetch/models/api.py`            -- data model
* `src/modfetch/services/api_client.py`   -- `ModrinthClient.get_version`
* `src/modfetch/services/mod_resolver.py` -- `ModResolver.resolve`
* `src/modfetch/services/dependency_resolver.py`
* `src/modfetch/services/version_matcher.py`
* `src/modfetch/download/verifier.py`
* `src/modfetch/download/queue.py` and `download/manager.py`
* `src/modfetch/orchestrator.py` and the legacy `src/modfetch/core.py`

Network I/O is modelled by passing the remote responses as explicit
data; the filesystem is modelled as an association list from paths to
file contents; the SHA-1 function is an abstract parameter
`sha1fn : Content → String` (its streaming computation in fixed-size
chunks is equivalent to hashing the whole content).  Python truthiness
of optional strings and lists (`if not expected_sha1: ...`) is modelled
explicitly by `truthyStr` / `truthySL`.
-/

set_option linter.unusedVariables false

/-! ## Basic model: Python truthiness, filesystem -/

/-- Python truthiness for an optional string: `None` and `""` are falsy. -/
def truthyStr : Option String → Option String
  | none => none
  | some s => if s = "" then none else some s

/-- File contents, as a byte list (the digest is computed from it). -/
abbrev Content := List Nat

/-- The filesystem: an association list from paths to file contents.
A path maps to the last content written to it. -/
abbrev FS := List (String × Content)

/-- Look up a path in the filesystem (`os.path.exists` + read). -/
def fsGet (fs : FS) (p : String) : Option Content :=
  (fs.find? (fun e => e.1 = p)).map (fun e => e.2)

/-- Write a file (truncating): `open(path, "wb")` followed by writes. -/
def fsSet (fs : FS) (p : String) (c : Content) : FS :=
  (p, c) :: fs.filter (fun e => ¬ e.1 = p)

/-- `os.remove(path)` (a no-op on a missing path, matching the guarded
`if os.path.exists(file_path): os.remove(file_path)` uses). -/
def fsRemove (fs : FS) (p : String) : FS :=
  fs.filter (fun e => ¬ e.1 = p)

/-- `os.path.exists`. -/
def fsExists (fs : FS) (p : String) : Bool :=
  (fsGet fs p).isSome

/-- `os.path.join(dir, filename)` for the forward-slash layout the code
builds its paths with. -/
def pathJoin (dir filename : String) : String :=
  dir ++ "/" ++ filename

/-- `url.startswith("file://")`, phrased over the character list so
that it evaluates by `decide`. -/
def isFileUrl (url : String) : Bool :=
  decide (url.data.take 7 = "file://".data)

/-! ## Data model (`src/modfetch/models/api.py`) -/

/-- `ProjectInfo` (models/api.py): identity of a project as returned by
`ModrinthClient.get_project`. -/
structure ProjectInfo where
  id : String
  name : String
  title : String
  description : String
  project_type : String
  versions : List String
  deriving Repr, DecidableEq

/-- A raw Modrinth file object (`files[]` entry of a version response):
`url, filename, size, hashes{sha1}, primary`. -/
structure RawFile where
  url : String
  filename : String
  size : Nat
  sha1 : Option String
  primary : Bool
  deriving Repr, DecidableEq

/-- `DependencyInfo` (models/api.py): referenced project id and kind. -/
structure DependencyInfo where
  project_id : String
  dependency_type : String
  deriving Repr, DecidableEq

/-- A raw Modrinth version object, as the version-list endpoint returns
it: `id, version_number, files[], dependencies[]` (the loader and
game-version fields are filter parameters of the query and play no role
in the selection logic). -/
structure RawVersion where
  id : String
  version_number : String
  name : String
  files : List RawFile
  dependencies : List DependencyInfo
  deriving Repr, DecidableEq

/-- `VersionInfo` (models/api.py). -/
structure VersionInfo where
  id : String
  name : String
  version : String
  files : List RawFile
  dependencies : List DependencyInfo
  deriving Repr, DecidableEq

/-- `VersionInfo.from_modrinth` (models/api.py). -/
def VersionInfo.from_modrinth (data : RawVersion) : VersionInfo :=
  { id := data.id
    name := data.name
    version := data.version_number
    files := data.files
    dependencies := data.dependencies }

/-! ## API client (`src/modfetch/services/api_client.py`) -/

/-- `ModrinthClient._get_primary_file`: first file flagged primary,
else the first file; `None` when the file list is empty. -/
def get_primary_file (version : RawVersion) : Option RawFile :=
  if version.files.isEmpty then none
  else
    match version.files.find? (fun f => f.primary) with
    | some f => some f
    | none => version.files.head?

/-- `ModrinthClient.get_version` (services/api_client.py), with the
network abstracted away: `response` is what `_request` returned for the
filtered version-list query (`none` = HTTP 404).  Mirrors the source:
empty result is not-found; a truthy `specific_version` is scanned for
an exact id or version-number match; otherwise — including when the
scan finds no match — the first entry is returned with its primary
file. -/
def get_version (response : Option (List RawVersion))
    (specific_version : Option String) :
    Option VersionInfo × Option RawFile :=
  match response with
  | none => (none, none)
  | some versions =>
    if versions.isEmpty then (none, none)
    else
      match truthyStr specific_version with
      | some sv =>
        match versions.find? (fun v => v.id = sv ∨ v.version_number = sv) with
        | some v => (some (VersionInfo.from_modrinth v), get_primary_file v)
        | none =>
          match versions.head? with
          | some v => (some (VersionInfo.from_modrinth v), get_primary_file v)
          | none => (none, none)
      | none =>
        match versions.head? with
        | some v => (some (VersionInfo.from_modrinth v), get_primary_file v)
        | none => (none, none)

/-! ## File verifier (`src/modfetch/download/verifier.py`) -/

/-- `FileVerifier.calc_sha1`: `None` when the file does not exist,
otherwise the digest of its (streamed) content.  `sha1fn` is the
abstract SHA-1 function. -/
def calc_sha1 (sha1fn : Content → String) (fs : FS) (file_path : String) :
    Option String :=
  match fsGet fs file_path with
  | none => none
  | some c => some (sha1fn c)

/-- `FileVerifier.verify_sha1`: `if not expected_sha1: return True`,
then compare the streamed digest; a missing file gives `False`. -/
def verify_sha1 (sha1fn : Content → String) (fs : FS) (file_path : String)
    (expected_sha1 : Option String) : Bool :=
  match truthyStr expected_sha1 with
  | none => true
  | some e =>
    match calc_sha1 sha1fn fs file_path with
    | none => false
    | some d => d = e

/-- `FileVerifier.is_valid`: the path must exist, and when a truthy
checksum is supplied it must match. -/
def is_valid (sha1fn : Content → String) (fs : FS) (file_path : String)
    (expected_sha1 : Option String) : Bool :=
  if ¬ fsExists fs file_path then false
  else
    match truthyStr expected_sha1 with
    | some _ => verify_sha1 sha1fn fs file_path expected_sha1
    | none => true

/-! ## Version matcher (`src/modfetch/services/version_matcher.py`) -/

/-- A configured value that may be a single string or a list of
strings (`only_version` / `feature` fields). -/
inductive StrOrList where
  | str (s : String)
  | list (l : List String)
  deriving Repr, DecidableEq

/-- Python truthiness plus the `isinstance(x, str)` single-value
normalisation: `""` and `[]` are falsy, a single string becomes a
one-element list. -/
def truthySL : Option StrOrList → Option (List String)
  | none => none
  | some (.str s) => if s = "" then none else some [s]
  | some (.list l) => if l.isEmpty then none else some l

/-- A structured configuration entry (the dict case of
`should_include`). -/
structure CfgEntry where
  only_version : Option StrOrList
  feature : Option StrOrList
  deriving Repr, DecidableEq

/-- A configuration entry: a plain string or a structured dict. -/
inductive Entry where
  | plain (s : String)
  | dict (e : CfgEntry)
  deriving Repr, DecidableEq

/-- `VersionMatcher.should_include` (services/version_matcher.py).
Non-dict entries always include; a truthy `only_version` excludes when
the target version is not listed; a truthy `feature` excludes exactly
when all listed features are already enabled. -/
def should_include (entry : Entry) (version : String)
    (features : List String) : Bool :=
  match entry with
  | .plain _ => true
  | .dict e =>
    let versionOk :=
      match truthySL e.only_version with
      | some need_versions => decide (version ∈ need_versions)
      | none => true
    if !versionOk then false
    else
      match truthySL e.feature with
      | some cfg_features =>
        if cfg_features.all (fun f => f ∈ features) then false else true
      | none => true

/-! ## Download queue (`src/modfetch/download/queue.py`) -/

/-- `DownloadTask` (download/queue.py). -/
structure DownloadTask where
  priority : Nat
  url : String
  filename : String
  download_dir : String
  sha1 : Option String
  category : String
  deriving Repr, DecidableEq

/-- State of a `DownloadQueue`: the dedup key set `_tasks`, the queued
tasks, and `_total_queued`. -/
structure QueueState where
  tasks : List String
  queued : List DownloadTask
  total_queued : Nat
  deriving Repr, DecidableEq

/-- A fresh `DownloadQueue`. -/
def QueueState.init : QueueState :=
  { tasks := [], queued := [], total_queued := 0 }

/-- The dedup key used by `DownloadQueue.put`:
`task_key = f"{url}:{filename}"` — a plain string concatenation with a
colon, not the pair itself. -/
def taskKey (url filename : String) : String :=
  url ++ ":" ++ filename

/-- `DownloadQueue.put`: drop the task and return `False` when the key
was already seen, otherwise record the key, enqueue the task and bump
`_total_queued`. -/
def queuePut (s : QueueState) (url filename download_dir : String)
    (sha1 : Option String) (category : String) (priority : Nat) :
    Bool × QueueState :=
  let key := taskKey url filename
  if key ∈ s.tasks then (false, s)
  else
    (true,
      { tasks := key :: s.tasks
        queued := s.queued ++
          [{ priority, url, filename, download_dir, sha1, category }]
        total_queued := s.total_queued + 1 })

/-! ## Download manager state (`src/modfetch/download/manager.py`) -/

/-- `DownloadStats` (download/manager.py). -/
structure DownloadStats where
  total : Nat
  completed : Nat
  failed : Nat
  skipped : Nat
  bytes_downloaded : Nat
  deriving Repr, DecidableEq

/-- Fresh statistics. -/
def DownloadStats.init : DownloadStats :=
  { total := 0, completed := 0, failed := 0, skipped := 0,
    bytes_downloaded := 0 }

/-- The enqueue-side state of a `DownloadManager`: its queue and its
stats (`_failed_downloads` lives in the download-side state below). -/
structure MgrState where
  queue : QueueState
  stats : DownloadStats
  deriving Repr, DecidableEq

/-- A fresh `DownloadManager` (enqueue side). -/
def MgrState.init : MgrState :=
  { queue := QueueState.init, stats := DownloadStats.init }

/-- `DownloadManager.enqueue`: delegate to `DownloadQueue.put` and bump
`stats.total` only when the task was newly added. -/
def enqueue (m : MgrState) (url filename download_dir : String)
    (sha1 : Option String) (category : String) (priority : Nat) :
    Bool × MgrState :=
  let (added, q) := queuePut m.queue url filename download_dir sha1
    category priority
  if added then
    (true, { queue := q, stats := { m.stats with total := m.stats.total + 1 } })
  else
    (false, { queue := q, stats := m.stats })

/-- An enqueue request (the argument tuple of `enqueue`). -/
structure EnqReq where
  url : String
  filename : String
  download_dir : String
  sha1 : Option String
  category : String
  priority : Nat
  deriving Repr, DecidableEq

/-- Run a sequence of `enqueue` calls against a manager. -/
def runEnqueues (m : MgrState) : List EnqReq → MgrState
  | [] => m
  | r :: rest =>
    runEnqueues
      (enqueue m r.url r.filename r.download_dir r.sha1 r.category r.priority).2
      rest

/-- The dedup key of an enqueue request. -/
def EnqReq.key (r : EnqReq) : String := taskKey r.url r.filename

/-! ## Mod resolver (`src/modfetch/services/mod_resolver.py`) -/

/-- A resolver argument: a bare identifier string or a structured
`ModEntry` carrying an optional id and slug. -/
inductive ModRef where
  | str (s : String)
  | entry (id : Option String) (slug : Option String)
  deriving Repr, DecidableEq

/-- The identifier extraction of `ModResolver.resolve`:
`mod_id = mod` for a string, `mod.id or mod.slug` for an entry,
followed by the `if not mod_id: return None` truthiness check. -/
def modRefId : ModRef → Option String
  | .str s => truthyStr (some s)
  | .entry id slug =>
    match truthyStr id with
    | some i => some i
    | none => truthyStr slug

/-- A printable tag for `str(mod)` (used for the skipped list). -/
def modRefStr : ModRef → String
  | .str s => s
  | .entry id slug => (id.getD "") ++ (slug.getD "")

/-- Per-instance state of a `ModResolver`: the `_cache` of project
lookups, plus a log of the project-lookup network requests actually
issued through `client.get_project` (one entry per network call). -/
structure ResolverState where
  cache : List (String × ProjectInfo)
  projectRequests : List String
  deriving Repr, DecidableEq

/-- A fresh `ModResolver`. -/
def ResolverState.init : ResolverState :=
  { cache := [], projectRequests := [] }

/-- `ModResolver.resolve` (services/mod_resolver.py), with the network
abstracted: `getProject` is what `client.get_project` answers and
`getVersionResp` is the raw version-list response for a project id (at
the ambient game version and loader).  The cache is consulted first;
on a miss the request is issued and the result is cached only when it
is truthy (`if project_info: self._cache[mod_id] = project_info`). -/
def resolverResolve (getProject : String → Option ProjectInfo)
    (getVersionResp : String → Option (List RawVersion))
    (mod : ModRef) (st : ResolverState) :
    Option (ProjectInfo × VersionInfo × RawFile) × ResolverState :=
  match modRefId mod with
  | none => (none, st)
  | some mod_id =>
    let cached := st.cache.find? (fun e => e.1 = mod_id)
    let lookup :=
      match cached with
      | some e => (some e.2, st)
      | none =>
        let st1 := { st with
          projectRequests := st.projectRequests ++ [mod_id] }
        match getProject mod_id with
        | some p => (some p, { st1 with cache := st1.cache ++ [(mod_id, p)] })
        | none => (none, st1)
    match lookup with
    | (none, st2) => (none, st2)
    | (some project_info, st2) =>
      match get_version (getVersionResp project_info.id) none with
      | (some version_info, some file_info) =>
        (some (project_info, version_info, file_info), st2)
      | _ => (none, st2)

/-! ## Dependency resolver (`src/modfetch/services/dependency_resolver.py`) -/

/-- State of a `DependencyResolver` during one top-level call: the
`_processed` id set and the accumulated `_dependencies` list. -/
structure DepState where
  processed : List String
  dependencies : List (ProjectInfo × VersionInfo × RawFile)

/-- One iteration of the `DependencyResolver._resolve_recursive` loop,
parameterised by the recursive call (`recurse`) made on a found
dependency's version.  A non-`required` kind is skipped; an already
processed id is skipped; otherwise the id is marked processed *first*,
the project is fetched (a failed fetch is skipped silently), the
matching version and primary file are fetched, and on success the
triple is appended before `recurse` explores the dependency's own
dependencies. -/
def depStep (getProject : String → Option ProjectInfo)
    (getVersionResp : String → Option (List RawVersion))
    (recurse : VersionInfo → DepState → DepState)
    (dep : DependencyInfo) (st : DepState) : DepState :=
  if dep.dependency_type ≠ "required" then st
  else if dep.project_id ∈ st.processed then st
  else
    let stp := { st with processed := dep.project_id :: st.processed }
    match getProject dep.project_id with
    | none => stp
    | some dep_info =>
      match get_version (getVersionResp dep.project_id) none with
      | (some dep_version, some dep_file) =>
        recurse dep_version
          { stp with dependencies :=
            stp.dependencies ++ [(dep_info, dep_version, dep_file)] }
      | _ => stp

/-- The `for dep in version_info.dependencies` loop: apply `depStep`
to each dependency in order. -/
def depWalk (getProject : String → Option ProjectInfo)
    (getVersionResp : String → Option (List RawVersion))
    (recurse : VersionInfo → DepState → DepState) :
    List DependencyInfo → DepState → DepState
  | [], st => st
  | dep :: rest, st =>
    depWalk getProject getVersionResp recurse rest
      (depStep getProject getVersionResp recurse dep st)

/-- `DependencyResolver._resolve_recursive` with a `fuel` bound on the
recursion depth (the Python recursion has no such bound; the
fuel-stability theorem below shows the bound is never hit once `fuel`
exceeds the number of projects the version endpoint knows, which is
exactly the termination argument of the mark-before-recurse rule).
At fuel 0 a nested exploration is cut short, leaving the state of the
moment. -/
def depRec (getProject : String → Option ProjectInfo)
    (getVersionResp : String → Option (List RawVersion)) :
    Nat → List DependencyInfo → DepState → DepState
  | 0, deps, st =>
    depWalk getProject getVersionResp (fun _ s => s) deps st
  | fuel + 1, deps, st =>
    depWalk getProject getVersionResp
      (fun vi s => depRec getProject getVersionResp fuel vi.dependencies s)
      deps st

/-- `DependencyResolver.resolve`: clear `_processed` and
`_dependencies`, then walk from the root version's dependencies. -/
def depResolve (getProject : String → Option ProjectInfo)
    (getVersionResp : String → Option (List RawVersion))
    (fuel : Nat) (version_info : VersionInfo) : DepState :=
  depRec getProject getVersionResp fuel version_info.dependencies
    { processed := [], dependencies := [] }

/-! ## Download execution (`src/modfetch/download/manager.py`) -/

/-- The outcome of one streaming GET attempt: a complete body, or a
failure (network error or non-200 status) that may have left a partial
body on disk. -/
inductive Outcome where
  | ok (c : Content)
  | fail (part : Option Content)

/-- Whether an attempt outcome is a failure. -/
def Outcome.isFail : Outcome → Bool
  | .ok _ => false
  | .fail _ => true

/-- The result of `DownloadManager.download_file`: returned `True`
after a download (`success`) or an existing-file skip (`skipped`),
raised a `DownloadError` after exhausting retries (`raised`), or fell
off the retry loop returning `False` (`exhausted`, unreachable). -/
inductive DLResult where
  | success
  | skipped
  | raised
  | exhausted
  deriving Repr, DecidableEq

/-- The download-side state of a `DownloadManager`: the filesystem it
writes to, its stats, the `_failed_downloads` list, and a log of the
backoff sleeps performed (`asyncio.sleep(delay)` calls, in order). -/
structure DLState where
  fs : FS
  stats : DownloadStats
  failed_downloads : List String
  delays : List Rat

/-- The retry loop of `download_file`
(`for attempt in range(self.max_retries + 1): ...`).  `n` is the
number of loop iterations left, `attempt` the current index.  On a
complete body the file is written and, when a truthy checksum was
supplied and mismatches, the file is removed and the attempt fails;
on any failure the partial file is removed, and either a backoff of
`retry_delay * 2 ** attempt` is slept before retrying or — on the last
attempt — `failed` is bumped, the filename is appended to
`_failed_downloads`, and the error is re-raised. -/
def dlLoop (sha1fn : Content → String) (max_retries : Nat)
    (retry_delay : Rat) (outcomes : Nat → Outcome)
    (filename file_path : String) (expected_sha1 : Option String) :
    Nat → Nat → DLState → DLResult × DLState
  | 0, _, st => (.exhausted, st)
  | n + 1, attempt, st =>
    match outcomes attempt with
    | .ok c =>
      let stw : DLState := { st with
        fs := fsSet st.fs file_path c
        stats := { st.stats with
          bytes_downloaded := st.stats.bytes_downloaded + c.length } }
      if (truthyStr expected_sha1).isSome ∧
          ¬ verify_sha1 sha1fn stw.fs file_path expected_sha1 then
        -- checksum mismatch: `os.remove(file_path)`, raise, and the
        -- `except` handler's guarded remove is then a no-op
        let stf : DLState := { stw with fs := fsRemove stw.fs file_path }
        if attempt < max_retries then
          dlLoop sha1fn max_retries retry_delay outcomes filename file_path
            expected_sha1 n (attempt + 1)
            { stf with delays := stf.delays ++ [retry_delay * 2 ^ attempt] }
        else
          (.raised, { stf with
            stats := { stf.stats with failed := stf.stats.failed + 1 }
            failed_downloads := stf.failed_downloads ++ [filename] })
      else
        (.success, { stw with
          stats := { stw.stats with completed := stw.stats.completed + 1 } })
    | .fail part =>
      let stw : DLState :=
        match part with
        | some c => { st with
            fs := fsSet st.fs file_path c
            stats := { st.stats with
              bytes_downloaded := st.stats.bytes_downloaded + c.length } }
        | none => st
      let stf : DLState := { stw with fs := fsRemove stw.fs file_path }
      if attempt < max_retries then
        dlLoop sha1fn max_retries retry_delay outcomes filename file_path
          expected_sha1 n (attempt + 1)
          { stf with delays := stf.delays ++ [retry_delay * 2 ^ attempt] }
      else
        (.raised, { stf with
          stats := { stf.stats with failed := stf.stats.failed + 1 }
          failed_downloads := stf.failed_downloads ++ [filename] })

/-- `DownloadManager.download_file`.  A `file://` URL is a local copy
(`localSrc` is the copied content, `none` when the copy raises);
otherwise an existing destination that passes `is_valid` is counted
skipped with no I/O, and otherwise the retry loop runs with
`max_retries + 1` total attempts. -/
def download_file (sha1fn : Content → String) (max_retries : Nat)
    (retry_delay : Rat) (outcomes : Nat → Outcome)
    (localSrc : Option Content) (url filename download_dir : String)
    (expected_sha1 : Option String) (st : DLState) : DLResult × DLState :=
  let file_path := pathJoin download_dir filename
  if isFileUrl url then
    match localSrc with
    | some c =>
      (.success, { st with
        fs := fsSet st.fs file_path c
        stats := { st.stats with completed := st.stats.completed + 1 } })
    | none =>
      (.raised, { st with
        stats := { st.stats with failed := st.stats.failed + 1 } })
  else if is_valid sha1fn st.fs file_path expected_sha1 then
    (.skipped, { st with
      stats := { st.stats with skipped := st.stats.skipped + 1 } })
  else
    dlLoop sha1fn max_retries retry_delay outcomes filename file_path
      expected_sha1 (max_retries + 1) 0 st

/-- One queued task together with the behaviour of the network and the
local filesystem source for it. -/
structure WorkerTask where
  task : DownloadTask
  outcomes : Nat → Outcome
  localSrc : Option Content

/-- `DownloadManager._worker`, run over a finite queue: each task is
passed to `download_file` and then marked done; an exception from a
permanently failed task (`DLResult.raised`) is swallowed by the
worker's `except Exception: pass`, so processing always continues with
the next task.  Returns the number of tasks processed (the
`task_done` marks) and the final state. -/
def workerRun (sha1fn : Content → String) (max_retries : Nat)
    (retry_delay : Rat) : List WorkerTask → DLState → Nat × DLState
  | [], st => (0, st)
  | wt :: rest, st =>
    let r := download_file sha1fn max_retries retry_delay wt.outcomes
      wt.localSrc wt.task.url wt.task.filename wt.task.download_dir
      wt.task.sha1 st
    let next := workerRun sha1fn max_retries retry_delay rest r.2
    (next.1 + 1, next.2)

/-! ## `max_concurrent` coercion (`src/modfetch/core.py`, lines 29-32) -/

/-- A Python value configured under the `max_concurrent` key: an
`int` (`bool` is an `int` subtype in Python and is covered by `pint`)
or any non-integer value. -/
inductive PyVal where
  | pint (n : Int)
  | pother
  deriving Repr, DecidableEq

/-- Whether a configured value passes
`isinstance(mc, int) and mc > 0`. -/
def PyVal.isPosInt : PyVal → Bool
  | .pint n => 0 < n
  | .pother => false

/-- `ModFetch.__init__` (core.py): read `max_concurrent` with default
5, then force it back to 5 with a warning unless it is a positive
integer.  Returns the resulting value and whether the warning was
printed. -/
def coerce_max_concurrent (v : Option PyVal) : Int × Bool :=
  let mc := v.getD (.pint 5)
  match mc with
  | .pint n => if n ≤ 0 then (5, true) else (n, false)
  | .pother => (5, true)

/-- `ModFetch.download_loop` (core.py): the worker pool is
`range(self.max_concurrent)` tasks, so its size is the coerced value
(as a natural number). -/
def download_loop_worker_count (max_concurrent : Int) : Nat :=
  max_concurrent.toNat

/-! ## Orchestrator (`src/modfetch/orchestrator.py`) -/

/-- The slice of `ModFetchConfig` the per-version pipeline reads. -/
structure OrchConfig where
  versions : List String
  mods : List ModRef
  features : List String
  download_dir : String
  loader : String
  /-- `MrpackMode.DOWNLOAD in mrpack_modes or OutputFormat.ZIP in format`. -/
  shouldDownload : Bool
  /-- Depth bound handed to the dependency-resolver model. -/
  depFuel : Nat

/-- The remote API as the orchestrator sees it: project lookups, and
version-list responses per (game version, project id). -/
structure OrchApi where
  getProject : String → Option ProjectInfo
  getVersionResp : String → String → Option (List RawVersion)

/-- Run-wide orchestrator state: the `_processed_mods` set, the
`_skipped_mods` and `_mrpack_files` lists, the shared `ModResolver`
instance, and the per-version `DownloadManager`s in creation order
(a fresh manager is created by every `_process_version` call). -/
structure OrchState where
  processed_mods : List String
  skipped_mods : List String
  mrpack_files : List String
  resolver : ResolverState
  perVersion : List (String × MgrState)

/-- A fresh `ModFetchOrchestrator`. -/
def OrchState.init : OrchState :=
  { processed_mods := [], skipped_mods := [], mrpack_files := []
    resolver := ResolverState.init, perVersion := [] }

/-- `ModFetchOrchestrator._should_include`: the raw entry is handed to
`VersionMatcher.should_include`, whose dict branch never fires for a
plain string or a (non-dict) `ModEntry` object, so structured entries
are always included on this path. -/
def orchShouldInclude (mod : ModRef) (version : String)
    (features : List String) : Bool :=
  match mod with
  | .str s => should_include (.plain s) version features
  | .entry _ _ => true

/-- `ModFetchOrchestrator._process_dependencies`: resolve the
transitive required dependencies of `version_info`, then for each one
not yet in `_processed_mods`, mark it processed, record its mrpack
entry and (when downloading) enqueue its file. -/
def processDependencies (cfg : OrchConfig) (api : OrchApi)
    (version versionDir : String) (version_info : VersionInfo)
    (acc : MgrState × OrchState) : MgrState × OrchState :=
  let deps := (depResolve api.getProject (api.getVersionResp version)
    cfg.depFuel version_info).dependencies
  deps.foldl (fun (acc : MgrState × OrchState) dep =>
    let (dep_info, _dep_version, dep_file) := dep
    let (mgr, st) := acc
    if dep_info.id ∈ st.processed_mods then (mgr, st)
    else
      let st := { st with
        processed_mods := dep_info.id :: st.processed_mods
        mrpack_files := st.mrpack_files ++ ["mods/" ++ dep_file.filename] }
      if cfg.shouldDownload then
        ((enqueue mgr dep_file.url dep_file.filename
          (pathJoin versionDir "mods") dep_file.sha1 "mods" 1).2, st)
      else (mgr, st)) acc

/-- `ModFetchOrchestrator._process_mods`: for each configured mod that
passes the inclusion matcher, resolve it; a failed resolution is
recorded under `_skipped_mods`; a project already in `_processed_mods`
is skipped; otherwise it is marked processed, recorded, (when
downloading) enqueued, and its dependencies are processed. -/
def processMods (cfg : OrchConfig) (api : OrchApi)
    (version versionDir : String) (acc : MgrState × OrchState) :
    MgrState × OrchState :=
  cfg.mods.foldl (fun (acc : MgrState × OrchState) mod =>
    let (mgr, st) := acc
    if ¬ orchShouldInclude mod version cfg.features then (mgr, st)
    else
      let res := resolverResolve api.getProject (api.getVersionResp version)
        mod st.resolver
      let st := { st with resolver := res.2 }
      match res.1 with
      | none =>
        (mgr, { st with skipped_mods := st.skipped_mods ++ [modRefStr mod] })
      | some (project_info, version_info, file_info) =>
        if project_info.id ∈ st.processed_mods then (mgr, st)
        else
          let st := { st with
            processed_mods := project_info.id :: st.processed_mods
            mrpack_files :=
              st.mrpack_files ++ ["mods/" ++ file_info.filename] }
          let mgr :=
            if cfg.shouldDownload then
              (enqueue mgr file_info.url file_info.filename
                (pathJoin versionDir "mods") file_info.sha1 "mods" 1).2
            else mgr
          processDependencies cfg api version versionDir version_info
            (mgr, st)) acc

/-- `ModFetchOrchestrator._process_version`: create a fresh
`DownloadManager`, process the configured mods for this game version,
and keep the manager (its stats are this version's download report).
The resource-pack, shader-pack and extra-URL passes never touch
`_processed_mods` and are elided.  Note: `_processed_mods` is *not*
reset here, nor anywhere in `run`. -/
def processVersion (cfg : OrchConfig) (api : OrchApi) (version : String)
    (st : OrchState) : OrchState :=
  let versionDir := pathJoin cfg.download_dir (version ++ "-" ++ cfg.loader)
  let (mgr, st) := processMods cfg api version versionDir (MgrState.init, st)
  { st with perVersion := st.perVersion ++ [(version, mgr)] }

/-- `ModFetchOrchestrator.run`: iterate `_process_version` over the
configured game versions, sharing one orchestrator state. -/
def orchRun (cfg : OrchConfig) (api : OrchApi) : OrchState :=
  cfg.versions.foldl (fun st v => processVersion cfg api v st)
    OrchState.init

/-- Modelled from the spec: the orchestrator drive loop with the
processed-set "reset at the start of each target game version
iteration" that the spec prescribes (and that the legacy
`ModFetch.start` in `core.py` performs via
`self.processed_mods.clear()`); `src/modfetch/orchestrator.py` itself
has no such reset.  Identical to `orchRun` except that
`_processed_mods` is cleared before each version pass. -/
def orchRunWithReset (cfg : OrchConfig) (api : OrchApi) : OrchState :=
  cfg.versions.foldl
    (fun st v => processVersion cfg api v { st with processed_mods := [] })
    OrchState.init

/-! ## Claim C3: `verify_sha1` semantics -/

/-- C3 counterexample: the claim says `verify_sha1(path, None)` is
false for a missing file, but the source returns `True` before ever
touching the filesystem (`if not expected_sha1: return True`): on an
empty filesystem the path does not exist yet verification succeeds. -/
theorem c3_counterexample :
    verify_sha1 (fun _ => "") [] "missing.jar" none = true ∧
    fsExists [] "missing.jar" = false := by
  exact ⟨rfl, rfl⟩

/-- C3 (amended): `verify_sha1(path, None)` returns true for *every*
path, whether or not the file exists; for a non-empty expected digest
`X`, it returns true iff the file exists and its streamed SHA-1 digest
equals `X` (a missing file yields false). -/
theorem c3_verify_sha1_amended (sha1fn : Content → String) (fs : FS)
    (path : String) :
    verify_sha1 sha1fn fs path none = true ∧
    ∀ X : String, X ≠ "" →
      ((verify_sha1 sha1fn fs path (some X) = true) ↔
        ∃ c, fsGet fs path = some c ∧ sha1fn c = X) := by
  refine ⟨rfl, fun X hX => ?_⟩
  simp only [verify_sha1, truthyStr, if_neg hX, calc_sha1]
  cases h : fsGet fs path with
  | none => simp
  | some c => simp [decide_eq_true_iff]

/-- C3 witness: the amended theorem at a one-file filesystem. -/
theorem c3_witness :
    verify_sha1 (fun _ => "d0") [("a.jar", [7])] "a.jar" none = true ∧
    ((verify_sha1 (fun _ => "d0") [("a.jar", [7])] "a.jar" (some "d0") = true) ↔
      ∃ c, fsGet [("a.jar", [7])] "a.jar" = some c ∧
        (fun _ : Content => "d0") c = "d0") := by
  exact ⟨(c3_verify_sha1_amended (fun _ => "d0") [("a.jar", [7])] "a.jar").1,
    (c3_verify_sha1_amended (fun _ => "d0") [("a.jar", [7])] "a.jar").2 "d0"
      (by decide)⟩

/-! ## Claim C10: empty-string SHA-1 is "no checksum" -/

/-- C10: an empty string passed as the expected SHA-1 is falsy in
Python and is treated as "no checksum": `verify_sha1` returns true
without reading the file (even on a missing file), `is_valid` returns
true for every existing file regardless of contents, and
`download_file` counts any existing destination file of a task with an
empty-string sha1 as skipped, performing no download attempt. -/
theorem c10_empty_sha1_is_no_checksum (sha1fn : Content → String) :
    (∀ fs path, verify_sha1 sha1fn fs path (some "") = true) ∧
    (∀ fs path, fsExists fs path = true →
      is_valid sha1fn fs path (some "") = true) ∧
    (∀ (max_retries : Nat) (retry_delay : Rat) (outcomes : Nat → Outcome)
        (url filename download_dir : String) (st : DLState) (c : Content),
      isFileUrl url = false →
      fsGet st.fs (pathJoin download_dir filename) = some c →
      download_file sha1fn max_retries retry_delay outcomes none url filename
          download_dir (some "") st =
        (DLResult.skipped, { st with
          stats := { st.stats with skipped := st.stats.skipped + 1 } })) := by
  refine ⟨fun fs path => rfl, ?_, ?_⟩
  · intro fs path h
    simp [is_valid, h, truthyStr]
  · intro max_retries retry_delay outcomes url filename download_dir st c
      hurl hfile
    have hex : fsExists st.fs (pathJoin download_dir filename) = true := by
      simp [fsExists, hfile]
    simp [download_file, hurl, is_valid, hex, truthyStr]

/-- C10 witness: a concrete existing destination with an empty-string
checksum is skipped. -/
theorem c10_witness :
    download_file (fun _ => "d") 3 1 (fun _ => Outcome.fail none) none
        "http://cdn/a.jar" "a.jar" "dl/mods" (some "")
        { fs := [("dl/mods/a.jar", [1, 2])], stats := DownloadStats.init,
          failed_downloads := [], delays := [] } =
      (DLResult.skipped,
        { fs := [("dl/mods/a.jar", [1, 2])],
          stats := { DownloadStats.init with skipped := 1 },
          failed_downloads := [], delays := [] }) := by
  exact (c10_empty_sha1_is_no_checksum (fun _ => "d")).2.2 3 1
    (fun _ => Outcome.fail none) "http://cdn/a.jar" "a.jar" "dl/mods"
    { fs := [("dl/mods/a.jar", [1, 2])], stats := DownloadStats.init,
      failed_downloads := [], delays := [] } [1, 2] (by decide) (by decide)

/-! ## Claim C8: inclusion matcher -/

/-- A truthy `only_version`/`feature` value always normalises to a
non-empty list. -/
theorem truthySL_ne_nil (o : Option StrOrList) (l : List String)
    (h : truthySL o = some l) : l ≠ [] := by
  match o with
  | none => simp [truthySL] at h
  | some (.str s) =>
    simp only [truthySL] at h
    split at h
    · exact absurd h (by simp)
    · cases h; simp
  | some (.list l') =>
    simp only [truthySL] at h
    split at h
    · exact absurd h (by simp)
    · cases h
      simpa [List.isEmpty_iff] using (by assumption : ¬ l.isEmpty = true)

/-- C8: `should_include` includes every plain string entry; a declared
(truthy) `only_version` excludes whenever the target version is not
listed; for an entry declaring a (truthy) `feature` and no
`only_version` restriction, the entry is excluded exactly when all
listed features are already enabled — in particular it is included
when the enabled-feature set is empty. -/
theorem c8_should_include :
    (∀ s version features, should_include (.plain s) version features = true) ∧
    (∀ e version features need_versions,
      truthySL e.only_version = some need_versions →
      version ∉ need_versions →
      should_include (.dict e) version features = false) ∧
    (∀ e version features cfg_features,
      e.only_version = none →
      truthySL e.feature = some cfg_features →
      (should_include (.dict e) version features = false ↔
        ∀ f ∈ cfg_features, f ∈ features)) ∧
    (∀ e version cfg_features,
      e.only_version = none →
      truthySL e.feature = some cfg_features →
      should_include (.dict e) version [] = true) := by
  refine ⟨fun s version features => rfl, ?_, ?_, ?_⟩
  · intro e version features need_versions hv hmem
    simp [should_include, hv, hmem]
  · intro e version features cfg_features hov hf
    simp only [should_include, hov]
    rw [hf]
    simp only [truthySL, Bool.not_true, Bool.false_eq_true, if_false]
    constructor
    · intro h
      split at h
      · next hall => simpa [List.all_eq_true] using hall
      · exact absurd h (by simp)
    · intro h
      have : cfg_features.all (fun f => decide (f ∈ features)) = true := by
        simpa [List.all_eq_true] using h
      simp [this]
  · intro e version cfg_features hov hf
    obtain ⟨x, xs, rfl⟩ : ∃ x xs, cfg_features = x :: xs := by
      cases cfg_features with
      | nil => exact absurd rfl (truthySL_ne_nil _ _ hf)
      | cons x xs => exact ⟨x, xs, rfl⟩
    simp only [should_include, hov]
    rw [hf]
    simp [truthySL]

/-- C8 witness: the spec's own examples —
`shouldInclude({"feature": "a"}, v, ["a"])` is false (superseded) and
`shouldInclude({"feature": "a"}, v, [])` is true — plus an
`only_version` mismatch. -/
theorem c8_witness :
    should_include (.plain "sodium") "1.20.1" [] = true ∧
    should_include
      (.dict { only_version := some (.str "1.20.1"), feature := none })
      "1.19.2" [] = false ∧
    (should_include (.dict { only_version := none, feature := some (.str "a") })
        "1.20.1" ["a"] = false ↔ ∀ f ∈ ["a"], f ∈ ["a"]) ∧
    should_include (.dict { only_version := none, feature := some (.str "a") })
      "1.20.1" [] = true := by
  refine ⟨c8_should_include.1 "sodium" "1.20.1" [], ?_, ?_, ?_⟩
  · exact c8_should_include.2.1
      { only_version := some (.str "1.20.1"), feature := none }
      "1.19.2" [] ["1.20.1"] (by decide) (by decide)
  · exact c8_should_include.2.2.1
      { only_version := none, feature := some (.str "a") }
      "1.20.1" ["a"] ["a"] rfl (by decide)
  · exact c8_should_include.2.2.2
      { only_version := none, feature := some (.str "a") }
      "1.20.1" ["a"] rfl (by decide)

/-! ## Claim C9: `max_concurrent` coercion -/

/-- C9: a configured `max_concurrent` that is not a positive integer
(zero, negative, or non-integer) is replaced by the default 5 with a
warning before `download_loop` sizes its worker pool, the coerced
value is always positive, and the pool size always equals the coerced
value — an invalid value is never propagated to the workers. -/
theorem c9_max_concurrent_coerced (v : PyVal) (hbad : v.isPosInt = false) :
    coerce_max_concurrent (some v) = (5, true) ∧
    download_loop_worker_count (coerce_max_concurrent (some v)).1 = 5 ∧
    ∀ w : Option PyVal,
      0 < (coerce_max_concurrent w).1 ∧
      1 ≤ download_loop_worker_count (coerce_max_concurrent w).1 ∧
      download_loop_worker_count (coerce_max_concurrent w).1 =
        (coerce_max_concurrent w).1.toNat := by
  have hv : coerce_max_concurrent (some v) = (5, true) := by
    match v with
    | .pint n =>
      simp only [PyVal.isPosInt, decide_eq_false_iff_not, not_lt] at hbad
      simp [coerce_max_concurrent, hbad]
    | .pother => rfl
  refine ⟨hv, by rw [hv]; rfl, ?_⟩
  intro w
  have hpos : 0 < (coerce_max_concurrent w).1 := by
    match w with
    | none => decide
    | some (.pint n) =>
      by_cases h : n ≤ 0
      · simp [coerce_max_concurrent, h]
      · simp only [coerce_max_concurrent, Option.getD, if_neg h]
        omega
    | some .pother => decide
  refine ⟨hpos, ?_, rfl⟩
  simp only [download_loop_worker_count]
  omega

/-- C9 witness: `max_concurrent = 0` is coerced to 5 workers. -/
theorem c9_witness :
    coerce_max_concurrent (some (.pint 0)) = (5, true) ∧
    download_loop_worker_count (coerce_max_concurrent (some (.pint 0))).1 = 5 := by
  exact ⟨(c9_max_concurrent_coerced (.pint 0) (by decide)).1,
    (c9_max_concurrent_coerced (.pint 0) (by decide)).2.1⟩

/-! ## Claim C1: `get_version` with an unmatched `specific_version` -/

/-- C1 counterexample: with a non-empty version list containing no
entry whose id or version number equals the requested specific
version, `get_version` does not behave as not-found: the scan falls
through to the `# 返回第一个版本` path and the first version with its
primary file is returned. -/
theorem c1_counterexample :
    (∀ v ∈ [({ id := "vid1", version_number := "1.0.0", name := "one",
               files := [{ url := "http://cdn/a.jar", filename := "a.jar",
                           size := 10, sha1 := some "h1", primary := true }],
               dependencies := [] } : RawVersion)],
        v.id ≠ "2.0.0" ∧ v.version_number ≠ "2.0.0") ∧
    get_version
        (some [{ id := "vid1", version_number := "1.0.0", name := "one",
                 files := [{ url := "http://cdn/a.jar", filename := "a.jar",
                             size := 10, sha1 := some "h1", primary := true }],
                 dependencies := [] }])
        (some "2.0.0") ≠
      ((none, none) : Option VersionInfo × Option RawFile) := by
  refine ⟨by decide, ?_⟩
  intro h
  exact absurd (congrArg Prod.fst h) (by decide)

/-- C1 (amended): when `specific_version` is given (non-empty) and no
entry of a non-empty result list matches it by id or version number,
`get_version` falls back to the first entry of the list, returning it
with its primary file — not `(absent, absent)`. -/
theorem c1_get_version_fallback (versions : List RawVersion) (s : String)
    (v0 : RawVersion) (hhead : versions.head? = some v0) (hs : s ≠ "")
    (hnomatch : ∀ v ∈ versions, v.id ≠ s ∧ v.version_number ≠ s) :
    get_version (some versions) (some s) =
      (some (VersionInfo.from_modrinth v0), get_primary_file v0) := by
  have hne : versions.isEmpty = false := by
    cases versions with
    | nil => simp at hhead
    | cons a t => rfl
  have hfind : versions.find? (fun v => v.id = s ∨ v.version_number = s)
      = none := by
    rw [List.find?_eq_none]
    intro v hv
    have := hnomatch v hv
    simp [this.1, this.2]
  simp only [get_version, hne, Bool.false_eq_true, if_false, truthyStr,
    if_neg hs, hfind, hhead]

/-- C1 witness: the fallback theorem at the counterexample input. -/
theorem c1_witness :
    get_version
        (some [{ id := "vid1", version_number := "1.0.0", name := "one",
                 files := [{ url := "http://cdn/a.jar", filename := "a.jar",
                             size := 10, sha1 := some "h1", primary := true }],
                 dependencies := [] }])
        (some "2.0.0") =
      (some (VersionInfo.from_modrinth
        { id := "vid1", version_number := "1.0.0", name := "one",
          files := [{ url := "http://cdn/a.jar", filename := "a.jar",
                      size := 10, sha1 := some "h1", primary := true }],
          dependencies := [] }),
       get_primary_file
        { id := "vid1", version_number := "1.0.0", name := "one",
          files := [{ url := "http://cdn/a.jar", filename := "a.jar",
                      size := 10, sha1 := some "h1", primary := true }],
          dependencies := [] }) := by
  exact c1_get_version_fallback _ "2.0.0" _ rfl (by decide) (by decide)

/-! ## Claim C4: resolver memoization -/

/-- C4 counterexample: `ModResolver.resolve` caches a project lookup
only when it succeeded (`if project_info: self._cache[...] = ...`), so
when the first lookup returned absent, a repeated resolution of the
same identifier issues the project-lookup request again: on an API
where the project is unknown, two `resolve` calls log two requests. -/
theorem c4_counterexample :
    ((resolverResolve (fun _ => none) (fun _ => none) (.str "sodium")
        (resolverResolve (fun _ => none) (fun _ => none) (.str "sodium")
          ResolverState.init).2).2).projectRequests =
      ["sodium", "sodium"] := by
  rfl

/-- C4 (amended): project lookups are memoized per resolver instance
for identifiers whose lookup *succeeds*: once the identifier is in the
cache no further request is issued, and two successive resolutions of
an identifier the API knows issue the network request exactly once.
An absent result is not cached and is re-requested. -/
theorem c4_resolver_memoized (getProject : String → Option ProjectInfo)
    (getVersionResp : String → Option (List RawVersion)) (mod : ModRef)
    (mod_id : String) (p : ProjectInfo)
    (hid : modRefId mod = some mod_id)
    (hp : getProject mod_id = some p) :
    (∀ st : ResolverState,
      (st.cache.find? (fun e => e.1 = mod_id)).isSome = true →
      (resolverResolve getProject getVersionResp mod st).2 = st) ∧
    (resolverResolve getProject getVersionResp mod
        (resolverResolve getProject getVersionResp mod
          ResolverState.init).2).2.projectRequests = [mod_id] := by
  have hcached : ∀ st : ResolverState,
      (st.cache.find? (fun e => e.1 = mod_id)).isSome = true →
      (resolverResolve getProject getVersionResp mod st).2 = st := by
    intro st hst
    obtain ⟨e, he⟩ := Option.isSome_iff_exists.mp hst
    simp only [resolverResolve, hid, he]
    rcases get_version (getVersionResp e.2.id) none with ⟨_ | v, _ | f⟩ <;> rfl
  refine ⟨hcached, ?_⟩
  have hfirst : (resolverResolve getProject getVersionResp mod
      ResolverState.init).2 =
      { cache := [(mod_id, p)], projectRequests := [mod_id] } := by
    simp only [resolverResolve, hid, ResolverState.init, List.find?_nil, hp]
    rcases get_version (getVersionResp p.id) none with ⟨_ | v, _ | f⟩ <;> rfl
  rw [hfirst, hcached { cache := [(mod_id, p)], projectRequests := [mod_id] }
    (by simp)]

/-- C4 witness: the memoization theorem at a one-project API. -/
theorem c4_witness :
    (resolverResolve
        (fun i => if i = "sodium" then
          some { id := "pid", name := "sodium", title := "Sodium",
                 description := "", project_type := "mod", versions := [] }
          else none)
        (fun _ => none) (.str "sodium")
        (resolverResolve
          (fun i => if i = "sodium" then
            some { id := "pid", name := "sodium", title := "Sodium",
                   description := "", project_type := "mod", versions := [] }
            else none)
          (fun _ => none) (.str "sodium")
          ResolverState.init).2).2.projectRequests = ["sodium"] := by
  exact (c4_resolver_memoized _ _ (.str "sodium") "sodium"
    { id := "pid", name := "sodium", title := "Sodium",
      description := "", project_type := "mod", versions := [] }
    (by decide) (by simp)).2

/-! ## Claim C6: enqueue idempotence and the total counter -/

/-- C6 counterexample: the dedup key is the concatenation
`f"{url}:{filename}"`, so the two *distinct* (url, filename) pairs
`("a:b", "c")` and `("a", "b:c")` collide: the second enqueue is
dropped as a duplicate and `total` stays 1, although the claim's
"total equals the number of distinct (url, filename) keys" demands
2. -/
theorem c6_counterexample :
    (("a:b", "c") ≠ (("a" : String), ("b:c" : String))) ∧
    (enqueue (enqueue MgrState.init "a:b" "c" "dl" none "files" 1).2
        "a" "b:c" "dl" none "files" 1).1 = false ∧
    (enqueue (enqueue MgrState.init "a:b" "c" "dl" none "files" 1).2
        "a" "b:c" "dl" none "files" 1).2.stats.total = 1 ∧
    (enqueue (enqueue MgrState.init "a:b" "c" "dl" none "files" 1).2
        "a" "b:c" "dl" none "files" 1).2.queue.queued.length = 1 := by
  refine ⟨by decide, by decide, by decide, by decide⟩

/-- Invariant of the enqueue side: if `total` and the queue length
agree with the (duplicate-free) key set, they still do after any
sequence of `enqueue` calls, and the key set accumulates exactly the
keys of the requests. -/
theorem runEnqueues_invariant (reqs : List EnqReq) :
    ∀ m : MgrState,
      m.queue.tasks.Nodup →
      m.stats.total = m.queue.tasks.length →
      m.queue.queued.length = m.queue.tasks.length →
      (runEnqueues m reqs).queue.tasks.Nodup ∧
      (runEnqueues m reqs).stats.total =
        (runEnqueues m reqs).queue.tasks.length ∧
      (runEnqueues m reqs).queue.queued.length =
        (runEnqueues m reqs).queue.tasks.length ∧
      (runEnqueues m reqs).queue.tasks.toFinset =
        m.queue.tasks.toFinset ∪ (reqs.map EnqReq.key).toFinset := by
  induction reqs with
  | nil =>
    intro m h1 h2 h3
    exact ⟨h1, h2, h3, by simp [runEnqueues]⟩
  | cons r rest ih =>
    intro m h1 h2 h3
    by_cases hdup : taskKey r.url r.filename ∈ m.queue.tasks
    · have hstep : runEnqueues m (r :: rest) = runEnqueues m rest := by
        have : (enqueue m r.url r.filename r.download_dir r.sha1
            r.category r.priority).2 = m := by
          simp [enqueue, queuePut, hdup]
        rw [runEnqueues, this]
      rw [hstep]
      obtain ⟨a1, a2, a3, a4⟩ := ih m h1 h2 h3
      refine ⟨a1, a2, a3, ?_⟩
      rw [a4]
      have hk : r.key ∈ m.queue.tasks.toFinset := by
        simpa [EnqReq.key] using hdup
      ext x
      simp only [Finset.mem_union, List.mem_toFinset, List.map_cons,
        List.toFinset_cons, Finset.mem_insert]
      constructor
      · rintro (h | h)
        · exact Or.inl h
        · exact Or.inr (Or.inr (by simpa using h))
      · rintro (h | h | h)
        · exact Or.inl h
        · subst h
          exact Or.inl (by simpa [EnqReq.key] using hdup)
        · exact Or.inr (by simpa using h)
    · have hm' : (enqueue m r.url r.filename r.download_dir r.sha1
          r.category r.priority).2 =
          { queue := { tasks := taskKey r.url r.filename :: m.queue.tasks
                       queued := m.queue.queued ++
                         [{ priority := r.priority, url := r.url,
                            filename := r.filename,
                            download_dir := r.download_dir, sha1 := r.sha1,
                            category := r.category }]
                       total_queued := m.queue.total_queued + 1 }
            stats := { m.stats with total := m.stats.total + 1 } } := by
        simp [enqueue, queuePut, hdup]
      have hstep : runEnqueues m (r :: rest) =
          runEnqueues
            { queue := { tasks := taskKey r.url r.filename :: m.queue.tasks
                         queued := m.queue.queued ++
                           [{ priority := r.priority, url := r.url,
                              filename := r.filename,
                              download_dir := r.download_dir, sha1 := r.sha1,
                              category := r.category }]
                         total_queued := m.queue.total_queued + 1 }
              stats := { m.stats with total := m.stats.total + 1 } } rest := by
        rw [runEnqueues, hm']
      rw [hstep]
      obtain ⟨a1, a2, a3, a4⟩ := ih
        { queue := { tasks := taskKey r.url r.filename :: m.queue.tasks
                     queued := m.queue.queued ++
                       [{ priority := r.priority, url := r.url,
                          filename := r.filename,
                          download_dir := r.download_dir, sha1 := r.sha1,
                          category := r.category }]
                     total_queued := m.queue.total_queued + 1 }
          stats := { m.stats with total := m.stats.total + 1 } }
        (List.nodup_cons.mpr ⟨hdup, h1⟩)
        (by simpa using h2) (by simpa using h3)
      refine ⟨a1, a2, a3, ?_⟩
      rw [a4]
      ext x
      simp only [Finset.mem_union, List.mem_toFinset, List.mem_cons,
        List.map_cons, List.toFinset_cons, Finset.mem_insert, EnqReq.key]
      tauto

/-- C6 (amended): `enqueue` called twice with an identical
(url, filename) pair enqueues exactly one task and bumps `total` only
once; in general, across any sequence of `enqueue` calls, `total` and
the number of queued tasks both equal the number of distinct dedup
*key strings* `url + ":" + filename` — distinct pairs whose
concatenations collide are counted once. -/
theorem c6_enqueue_dedup :
    (∀ r : EnqReq,
      (enqueue MgrState.init r.url r.filename r.download_dir r.sha1
        r.category r.priority).1 = true ∧
      (enqueue (enqueue MgrState.init r.url r.filename r.download_dir r.sha1
          r.category r.priority).2 r.url r.filename r.download_dir r.sha1
        r.category r.priority).1 = false ∧
      (enqueue (enqueue MgrState.init r.url r.filename r.download_dir r.sha1
          r.category r.priority).2 r.url r.filename r.download_dir r.sha1
        r.category r.priority).2.stats.total = 1 ∧
      (enqueue (enqueue MgrState.init r.url r.filename r.download_dir r.sha1
          r.category r.priority).2 r.url r.filename r.download_dir r.sha1
        r.category r.priority).2.queue.queued.length = 1) ∧
    (∀ reqs : List EnqReq,
      (runEnqueues MgrState.init reqs).stats.total =
        (reqs.map EnqReq.key).toFinset.card ∧
      (runEnqueues MgrState.init reqs).queue.queued.length =
        (reqs.map EnqReq.key).toFinset.card) := by
  constructor
  · intro r
    refine ⟨by simp [enqueue, queuePut, MgrState.init, QueueState.init], ?_, ?_, ?_⟩ <;>
      simp [enqueue, queuePut, MgrState.init, QueueState.init,
        DownloadStats.init]
  · intro reqs
    obtain ⟨a1, a2, a3, a4⟩ := runEnqueues_invariant reqs MgrState.init
      (by simp [MgrState.init, QueueState.init])
      (by simp [MgrState.init, QueueState.init, DownloadStats.init])
      (by simp [MgrState.init, QueueState.init])
    have hcard : (runEnqueues MgrState.init reqs).queue.tasks.toFinset.card =
        (reqs.map EnqReq.key).toFinset.card := by
      rw [a4]
      simp [MgrState.init, QueueState.init]
    have hlen : (runEnqueues MgrState.init reqs).queue.tasks.toFinset.card =
        (runEnqueues MgrState.init reqs).queue.tasks.length :=
      List.toFinset_card_of_nodup a1
    exact ⟨by rw [a2, ← hlen, hcard], by rw [a3, ← hlen, hcard]⟩

/-! ## Claim C2: the processed set across game-version passes -/

/-- C2: `ModFetchOrchestrator` never resets `_processed_mods` — it is
filled in the first version pass and still consulted in the second, so
a mod resolved and enqueued for the first configured game version is
treated as already processed in the second pass and nothing is
enqueued for it there (its per-version `DownloadManager` ends with
`total = 0`).  The spec-modelled variant that clears the set at the
start of every version pass — the behaviour prescribed by the spec and
implemented by the legacy `ModFetch.start` (core.py line 602,
`self.processed_mods.clear()`) — enqueues the mod afresh for each
version. -/
theorem c2_processed_set_not_reset :
    let cfg : OrchConfig :=
      { versions := ["1.20.1", "1.21.0"], mods := [.str "m"], features := []
        download_dir := "dl", loader := "fabric", shouldDownload := true
        depFuel := 2 }
    let api : OrchApi :=
      { getProject := fun id =>
          if id = "m" then
            some { id := "mid", name := "m", title := "M", description := ""
                   project_type := "mod", versions := [] }
          else none
        getVersionResp := fun v id =>
          if id = "mid" then
            if v = "1.20.1" then
              some [{ id := "v1", version_number := "1.0", name := "one"
                      files := [{ url := "http://cdn/m-1.20.1.jar"
                                  filename := "m-1.20.1.jar", size := 1
                                  sha1 := none, primary := true }]
                      dependencies := [] }]
            else if v = "1.21.0" then
              some [{ id := "v2", version_number := "2.0", name := "two"
                      files := [{ url := "http://cdn/m-1.21.0.jar"
                                  filename := "m-1.21.0.jar", size := 1
                                  sha1 := none, primary := true }]
                      dependencies := [] }]
            else none
          else none }
    ((orchRun cfg api).perVersion.map (fun e => (e.1, e.2.stats.total)) =
      [("1.20.1", 1), ("1.21.0", 0)]) ∧
    ((orchRunWithReset cfg api).perVersion.map
        (fun e => (e.1, e.2.stats.total)) =
      [("1.20.1", 1), ("1.21.0", 1)]) := by
  exact ⟨by decide, by decide⟩

/-! ## Claim C7: retry exhaustion -/

/-- Removing a path removes it from the filesystem. -/
theorem fsGet_fsRemove (fs : FS) (p : String) :
    fsGet (fsRemove fs p) p = none := by
  have h : (fsRemove fs p).find? (fun e => decide (e.1 = p)) = none := by
    rw [List.find?_eq_none]
    intro e he
    have := (List.mem_filter.mp he).2
    simpa using this
  simp only [fsGet, h, Option.map_none']

/-- The retry loop under an all-failing network: the last attempt
raises after bumping `failed` once and appending the filename once,
the destination path is gone from the filesystem, and the backoff
sleeps performed are exactly `retry_delay * 2 ^ i` for each non-final
attempt `i`. -/
theorem dlLoop_all_fail (sha1fn : Content → String) (max_retries : Nat)
    (retry_delay : Rat) (outcomes : Nat → Outcome)
    (filename file_path : String) (expected_sha1 : Option String) :
    ∀ n attempt st,
      attempt + n = max_retries + 1 →
      (∀ i < max_retries + 1, (outcomes i).isFail = true) →
      0 < n →
      (dlLoop sha1fn max_retries retry_delay outcomes filename file_path
          expected_sha1 n attempt st).1 = DLResult.raised ∧
      (dlLoop sha1fn max_retries retry_delay outcomes filename file_path
          expected_sha1 n attempt st).2.stats.failed = st.stats.failed + 1 ∧
      (dlLoop sha1fn max_retries retry_delay outcomes filename file_path
          expected_sha1 n attempt st).2.failed_downloads =
        st.failed_downloads ++ [filename] ∧
      fsGet (dlLoop sha1fn max_retries retry_delay outcomes filename file_path
          expected_sha1 n attempt st).2.fs file_path = none ∧
      (dlLoop sha1fn max_retries retry_delay outcomes filename file_path
          expected_sha1 n attempt st).2.delays =
        st.delays ++
          (List.range' attempt (n - 1)).map (fun i => retry_delay * 2 ^ i) := by
  intro n
  induction n with
  | zero => intro attempt st h1 h2 h3; omega
  | succ n' ih =>
    intro attempt st h1 h2 h3
    have hattempt : attempt < max_retries + 1 := by omega
    have hfail := h2 attempt hattempt
    cases ho : outcomes attempt with
    | ok c => rw [ho] at hfail; simp [Outcome.isFail] at hfail
    | fail part =>
      rw [dlLoop]
      cases n' with
      | zero =>
        have hlast : ¬ attempt < max_retries := by omega
        cases part with
        | none =>
          simp [ho, if_neg hlast, fsGet_fsRemove, List.range']
        | some c =>
          simp [ho, if_neg hlast, fsGet_fsRemove, List.range']
      | succ k =>
        have hlt : attempt < max_retries := by omega
        cases part with
        | none =>
          simp only [ho, if_pos hlt]
          obtain ⟨a1, a2, a3, a4, a5⟩ := ih (attempt + 1)
            { st with
              fs := fsRemove st.fs file_path
              delays := st.delays ++ [retry_delay * 2 ^ attempt] }
            (by omega) h2 (by omega)
          refine ⟨a1, a2, a3, a4, ?_⟩
          rw [a5]
          simp only [Nat.add_sub_cancel]
          rw [List.range'_succ attempt k 1]
          simp [List.append_assoc]
        | some c =>
          simp only [ho, if_pos hlt]
          obtain ⟨a1, a2, a3, a4, a5⟩ := ih (attempt + 1)
            { st with
              fs := fsRemove (fsSet st.fs file_path c) file_path
              stats := { st.stats with bytes_downloaded :=
                st.stats.bytes_downloaded + c.length }
              delays := st.delays ++ [retry_delay * 2 ^ attempt] }
            (by omega) h2 (by omega)
          refine ⟨a1, a2, a3, a4, ?_⟩
          rw [a5]
          simp only [Nat.add_sub_cancel]
          rw [List.range'_succ attempt k 1]
          simp [List.append_assoc]

/-- C7: for a remote task whose destination does not already validate,
under a network where every one of the `max_retries + 1` attempts
fails, `download_file` deletes any partial file after each attempt and
raises after the last one: the filename enters `_failed_downloads`
exactly once, the `failed` counter rises exactly once, the destination
path is left absent, the backoff sleeps are exactly
`retry_delay * 2 ^ attempt` for the non-final attempts — strictly
increasing for a positive `retry_delay` — and a worker processes every
queued task regardless of such permanent failures. -/
theorem c7_retry_exhaustion (sha1fn : Content → String)
    (max_retries : Nat) (retry_delay : Rat) (outcomes : Nat → Outcome)
    (localSrc : Option Content) (url filename download_dir : String)
    (expected_sha1 : Option String) (st : DLState)
    (hurl : isFileUrl url = false)
    (hvalid : is_valid sha1fn st.fs (pathJoin download_dir filename)
      expected_sha1 = false)
    (hfail : ∀ i < max_retries + 1, (outcomes i).isFail = true)
    (hdelay : 0 < retry_delay) :
    (download_file sha1fn max_retries retry_delay outcomes localSrc url
        filename download_dir expected_sha1 st).1 = DLResult.raised ∧
    (download_file sha1fn max_retries retry_delay outcomes localSrc url
        filename download_dir expected_sha1 st).2.stats.failed =
      st.stats.failed + 1 ∧
    (download_file sha1fn max_retries retry_delay outcomes localSrc url
        filename download_dir expected_sha1 st).2.failed_downloads =
      st.failed_downloads ++ [filename] ∧
    fsGet (download_file sha1fn max_retries retry_delay outcomes localSrc url
        filename download_dir expected_sha1 st).2.fs
      (pathJoin download_dir filename) = none ∧
    (download_file sha1fn max_retries retry_delay outcomes localSrc url
        filename download_dir expected_sha1 st).2.delays =
      st.delays ++
        (List.range max_retries).map (fun i => retry_delay * 2 ^ i) ∧
    ((List.range max_retries).map
      (fun i => retry_delay * 2 ^ i)).Pairwise (· < ·) ∧
    ∀ (tasks : List WorkerTask) (st2 : DLState),
      (workerRun sha1fn max_retries retry_delay tasks st2).1 =
        tasks.length := by
  have hred : download_file sha1fn max_retries retry_delay outcomes localSrc
      url filename download_dir expected_sha1 st =
      dlLoop sha1fn max_retries retry_delay outcomes filename
        (pathJoin download_dir filename) expected_sha1 (max_retries + 1) 0
        st := by
    simp [download_file, hurl, hvalid]
  obtain ⟨a1, a2, a3, a4, a5⟩ := dlLoop_all_fail sha1fn max_retries
    retry_delay outcomes filename (pathJoin download_dir filename)
    expected_sha1 (max_retries + 1) 0 st (by omega) hfail (by omega)
  rw [hred]
  refine ⟨a1, a2, a3, a4, ?_, ?_, ?_⟩
  · rw [a5]
    simp [List.range_eq_range']
  · refine List.Pairwise.map _ ?_ (List.pairwise_lt_range max_retries)
    intro i j hij
    exact mul_lt_mul_of_pos_left (pow_lt_pow_right₀ (by norm_num) hij) hdelay
  · intro tasks
    induction tasks with
    | nil => intro st2; rfl
    | cons t rest ih =>
      intro st2
      simp only [workerRun, List.length_cons]
      rw [ih]

/-- C7 witness: a three-attempt task (`max_retries = 2`) against an
always-failing network is recorded failed once and leaves no file. -/
theorem c7_witness :
    (download_file (fun _ => "d") 2 1 (fun _ => Outcome.fail none) none
        "http://cdn/a.jar" "a.jar" "dl/mods" (some "h")
        { fs := [], stats := DownloadStats.init, failed_downloads := []
          delays := [] }).1 = DLResult.raised ∧
    (download_file (fun _ => "d") 2 1 (fun _ => Outcome.fail none) none
        "http://cdn/a.jar" "a.jar" "dl/mods" (some "h")
        { fs := [], stats := DownloadStats.init, failed_downloads := []
          delays := [] }).2.failed_downloads = ["a.jar"] := by
  have h := c7_retry_exhaustion (fun _ => "d") 2 1 (fun _ => Outcome.fail none)
    none "http://cdn/a.jar" "a.jar" "dl/mods" (some "h")
    { fs := [], stats := DownloadStats.init, failed_downloads := []
      delays := [] }
    (by decide) (by decide) (fun i _ => rfl) (by norm_num)
  exact ⟨h.1, h.2.2.1⟩


/-! ## Claim C5: dependency resolution on finite (possibly cyclic)
graphs -/

/-- The version-list endpoint as a finite table (only finitely many
projects have versions; a miss is a 404). -/
def lookupVersions (table : List (String × List RawVersion))
    (id : String) : Option (List RawVersion) :=
  (table.find? (fun e => e.1 = id)).map (fun e => e.2)

/-- Non-membership in the processed set, as a predicate. -/
def notMem (proc : List String) (k : String) : Bool :=
  decide (¬ k ∈ proc)

/-- The number of table keys not yet in the processed set: the
termination measure of the mark-before-recurse walk. -/
def unprocessedKeys (table : List (String × List RawVersion))
    (proc : List String) : Nat :=
  (table.map Prod.fst).countP (notMem proc)

/-- Counting non-members only shrinks as the processed set grows. -/
theorem countP_notMem_mono (l : List String) (p q : List String)
    (h : ∀ x, x ∈ p → x ∈ q) :
    l.countP (notMem q) ≤ l.countP (notMem p) := by
  induction l with
  | nil => simp
  | cons a t ih =>
    rw [List.countP_cons, List.countP_cons]
    have himp : notMem q a = true → notMem p a = true := by
      simp only [notMem, decide_eq_true_iff]
      intro hq hp
      exact hq (h a hp)
    have hhead : (if notMem q a = true then 1 else 0) ≤
        (if notMem p a = true then 1 else 0) := by
      cases hq : notMem q a
      · simp
      · simp [himp hq]
    omega

/-- Inserting a fresh table key strictly shrinks the count. -/
theorem countP_notMem_strict (l : List String) (p : List String)
    (k : String) (hk : k ∈ l) (hnp : ¬ k ∈ p) :
    l.countP (notMem (k :: p)) < l.countP (notMem p) := by
  induction l with
  | nil => simp at hk
  | cons a t ih =>
    rw [List.countP_cons, List.countP_cons]
    have hmono := countP_notMem_mono t p (k :: p)
      (fun x hx => List.mem_cons_of_mem _ hx)
    by_cases hak : a = k
    · subst hak
      have h1 : notMem (a :: p) a = false := by simp [notMem]
      have h2 : notMem p a = true := by simp [notMem, hnp]
      rw [h1, h2]
      simp only [Bool.false_eq_true, if_false, if_true]
      omega
    · have hkt : k ∈ t := by
        rcases List.mem_cons.mp hk with heq | hkt
        · exact absurd heq.symm hak
        · exact hkt
      have hstrict := ih hkt
      have himp : notMem (k :: p) a = true → notMem p a = true := by
        simp only [notMem, decide_eq_true_iff, List.mem_cons]
        tauto
      have hhead : (if notMem (k :: p) a = true then 1 else 0) ≤
          (if notMem p a = true then 1 else 0) := by
        cases h1 : notMem (k :: p) a
        · simp
        · simp [himp h1]
      omega

/-- The measure is bounded by the table size. -/
theorem unprocessedKeys_le (table : List (String × List RawVersion))
    (proc : List String) : unprocessedKeys table proc ≤ table.length := by
  calc unprocessedKeys table proc ≤ (table.map Prod.fst).length :=
        List.countP_le_length _
    _ = table.length := List.length_map _ _

/-- The measure only shrinks as the processed set grows. -/
theorem unprocessedKeys_mono (table : List (String × List RawVersion))
    (p q : List String) (h : ∀ x, x ∈ p → x ∈ q) :
    unprocessedKeys table q ≤ unprocessedKeys table p :=
  countP_notMem_mono _ _ _ h

/-- A successful version lookup means the id is a table key. -/
theorem lookupVersions_mem (table : List (String × List RawVersion))
    (id : String) (vs : List RawVersion)
    (h : lookupVersions table id = some vs) : id ∈ table.map Prod.fst := by
  unfold lookupVersions at h
  cases hf : table.find? (fun e => e.1 = id) with
  | none => rw [hf] at h; simp at h
  | some e =>
    have hmem := List.mem_of_find?_eq_some hf
    have hp := List.find?_some hf
    have : e.1 = id := by simpa using hp
    exact this ▸ List.mem_map_of_mem Prod.fst hmem

/-- `get_version` of a 404 is not-found. -/
theorem get_version_none (s : Option String) :
    get_version none s = (none, none) := rfl

/-- One loop iteration only conses onto the processed set, provided
the recursive call does as well. -/
theorem depStep_processed_suffix
    (getProject : String → Option ProjectInfo)
    (getVersionResp : String → Option (List RawVersion))
    (recurse : VersionInfo → DepState → DepState)
    (hrec : ∀ vi s, ∃ ext, (recurse vi s).processed = ext ++ s.processed)
    (dep : DependencyInfo) (st : DepState) :
    ∃ ext, (depStep getProject getVersionResp recurse dep st).processed =
      ext ++ st.processed := by
  simp only [depStep]
  by_cases hreq : dep.dependency_type = "required"
  · simp only [hreq, ne_eq, not_true_eq_false, if_false]
    by_cases hproc : dep.project_id ∈ st.processed
    · simp only [hproc, if_true]
      exact ⟨[], rfl⟩
    · simp only [hproc, if_false]
      cases hg : getProject dep.project_id with
      | none => exact ⟨[dep.project_id], rfl⟩
      | some dep_info =>
        rcases hv : get_version (getVersionResp dep.project_id) none with
          ⟨_ | dv, _ | df⟩
        · exact ⟨[dep.project_id], rfl⟩
        · exact ⟨[dep.project_id], rfl⟩
        · exact ⟨[dep.project_id], rfl⟩
        · obtain ⟨e, he⟩ := hrec dv
            { st with
              processed := dep.project_id :: st.processed
              dependencies := st.dependencies ++ [(dep_info, dv, df)] }
          exact ⟨e ++ [dep.project_id], by
            rw [he]
            simp⟩
  · simp only [hreq, ne_eq, not_false_eq_true, if_true]
    exact ⟨[], rfl⟩

/-- The loop only conses onto the processed set. -/
theorem depWalk_processed_suffix
    (getProject : String → Option ProjectInfo)
    (getVersionResp : String → Option (List RawVersion))
    (recurse : VersionInfo → DepState → DepState)
    (hrec : ∀ vi s, ∃ ext, (recurse vi s).processed = ext ++ s.processed) :
    ∀ (deps : List DependencyInfo) (st : DepState), ∃ ext,
      (depWalk getProject getVersionResp recurse deps st).processed =
        ext ++ st.processed := by
  intro deps
  induction deps with
  | nil => intro st; exact ⟨[], rfl⟩
  | cons dep rest ih =>
    intro st
    obtain ⟨e1, he1⟩ := depStep_processed_suffix getProject getVersionResp
      recurse hrec dep st
    obtain ⟨e2, he2⟩ := ih (depStep getProject getVersionResp recurse dep st)
    exact ⟨e2 ++ e1, by simp only [depWalk]; rw [he2, he1, List.append_assoc]⟩

/-- The whole recursive walk only conses onto the processed set. -/
theorem depRec_processed_suffix
    (getProject : String → Option ProjectInfo)
    (getVersionResp : String → Option (List RawVersion)) :
    ∀ (fuel : Nat) (deps : List DependencyInfo) (st : DepState), ∃ ext,
      (depRec getProject getVersionResp fuel deps st).processed =
        ext ++ st.processed := by
  intro fuel
  induction fuel with
  | zero =>
    exact depWalk_processed_suffix getProject getVersionResp _
      (fun vi s => ⟨[], rfl⟩)
  | succ f ih =>
    exact depWalk_processed_suffix getProject getVersionResp _
      (fun vi s => ih vi.dependencies s)

/-- One loop iteration only appends to the result list, provided the
recursive call does as well: each found dependency is appended before
its own dependencies are explored. -/
theorem depStep_dependencies_suffix
    (getProject : String → Option ProjectInfo)
    (getVersionResp : String → Option (List RawVersion))
    (recurse : VersionInfo → DepState → DepState)
    (hrec : ∀ vi s, ∃ ext,
      (recurse vi s).dependencies = s.dependencies ++ ext)
    (dep : DependencyInfo) (st : DepState) :
    ∃ ext, (depStep getProject getVersionResp recurse dep st).dependencies =
      st.dependencies ++ ext := by
  simp only [depStep]
  by_cases hreq : dep.dependency_type = "required"
  · simp only [hreq, ne_eq, not_true_eq_false, if_false]
    by_cases hproc : dep.project_id ∈ st.processed
    · simp only [hproc, if_true]
      exact ⟨[], by simp⟩
    · simp only [hproc, if_false]
      cases hg : getProject dep.project_id with
      | none => exact ⟨[], by simp⟩
      | some dep_info =>
        rcases hv : get_version (getVersionResp dep.project_id) none with
          ⟨_ | dv, _ | df⟩
        · exact ⟨[], by simp⟩
        · exact ⟨[], by simp⟩
        · exact ⟨[], by simp⟩
        · obtain ⟨e, he⟩ := hrec dv
            { st with
              processed := dep.project_id :: st.processed
              dependencies := st.dependencies ++ [(dep_info, dv, df)] }
          exact ⟨(dep_info, dv, df) :: e, by rw [he]; simp⟩
  · simp only [hreq, ne_eq, not_false_eq_true, if_true]
    exact ⟨[], by simp⟩

/-- The loop only appends to the result list. -/
theorem depWalk_dependencies_suffix
    (getProject : String → Option ProjectInfo)
    (getVersionResp : String → Option (List RawVersion))
    (recurse : VersionInfo → DepState → DepState)
    (hrec : ∀ vi s, ∃ ext,
      (recurse vi s).dependencies = s.dependencies ++ ext) :
    ∀ (deps : List DependencyInfo) (st : DepState), ∃ ext,
      (depWalk getProject getVersionResp recurse deps st).dependencies =
        st.dependencies ++ ext := by
  intro deps
  induction deps with
  | nil => intro st; exact ⟨[], by simp [depWalk]⟩
  | cons dep rest ih =>
    intro st
    obtain ⟨e1, he1⟩ := depStep_dependencies_suffix getProject getVersionResp
      recurse hrec dep st
    obtain ⟨e2, he2⟩ := ih (depStep getProject getVersionResp recurse dep st)
    exact ⟨e1 ++ e2, by
      simp only [depWalk]; rw [he2, he1, List.append_assoc]⟩

/-- The whole recursive walk only appends to the result list. -/
theorem depRec_dependencies_suffix
    (getProject : String → Option ProjectInfo)
    (getVersionResp : String → Option (List RawVersion)) :
    ∀ (fuel : Nat) (deps : List DependencyInfo) (st : DepState), ∃ ext,
      (depRec getProject getVersionResp fuel deps st).dependencies =
        st.dependencies ++ ext := by
  intro fuel
  induction fuel with
  | zero =>
    exact depWalk_dependencies_suffix getProject getVersionResp _
      (fun vi s => ⟨[], by simp⟩)
  | succ f ih =>
    exact depWalk_dependencies_suffix getProject getVersionResp _
      (fun vi s => ih vi.dependencies s)

/-- A dependency list with no `required` entry leaves the state
untouched: only required-kind dependencies are followed. -/
theorem depWalk_no_required
    (getProject : String → Option ProjectInfo)
    (getVersionResp : String → Option (List RawVersion))
    (recurse : VersionInfo → DepState → DepState) :
    ∀ (deps : List DependencyInfo) (st : DepState),
      (∀ d ∈ deps, d.dependency_type ≠ "required") →
      depWalk getProject getVersionResp recurse deps st = st := by
  intro deps
  induction deps with
  | nil => intro st _; rfl
  | cons dep rest ih =>
    intro st h
    have hdep : dep.dependency_type ≠ "required" := h dep (by simp)
    have hstep : depStep getProject getVersionResp recurse dep st = st := by
      simp [depStep, hdep]
    simp only [depWalk, hstep]
    exact ih st (fun d hd => h d (List.mem_cons_of_mem _ hd))

/-- The state invariant of the walk: processed ids are never
duplicated, at most one dependency entry is produced per processed id,
and every produced entry was successfully fetched (project, version
and primary file) under some processed id. -/
def DepInv (getProject : String → Option ProjectInfo)
    (getVersionResp : String → Option (List RawVersion))
    (st : DepState) : Prop :=
  st.processed.Nodup ∧
  st.dependencies.length ≤ st.processed.length ∧
  ∀ e ∈ st.dependencies, ∃ id, id ∈ st.processed ∧
    getProject id = some e.1 ∧
    get_version (getVersionResp id) none = (some e.2.1, some e.2.2)

/-- One loop iteration preserves the invariant. -/
theorem depStep_inv
    (getProject : String → Option ProjectInfo)
    (getVersionResp : String → Option (List RawVersion))
    (recurse : VersionInfo → DepState → DepState)
    (hrec : ∀ vi s, DepInv getProject getVersionResp s →
      DepInv getProject getVersionResp (recurse vi s))
    (dep : DependencyInfo) (st : DepState)
    (h : DepInv getProject getVersionResp st) :
    DepInv getProject getVersionResp
      (depStep getProject getVersionResp recurse dep st) := by
  obtain ⟨h1, h2, h3⟩ := h
  simp only [depStep]
  by_cases hreq : dep.dependency_type = "required"
  · simp only [hreq, ne_eq, not_true_eq_false, if_false]
    by_cases hproc : dep.project_id ∈ st.processed
    · simp only [hproc, if_true]
      exact ⟨h1, h2, h3⟩
    · simp only [hproc, if_false]
      have hcons : (dep.project_id :: st.processed).Nodup :=
        List.nodup_cons.mpr ⟨hproc, h1⟩
      cases hg : getProject dep.project_id with
      | none =>
        refine ⟨hcons, by simpa using Nat.le_succ_of_le h2, ?_⟩
        intro e he
        obtain ⟨id, hid, hgp, hgv⟩ := h3 e he
        exact ⟨id, List.mem_cons_of_mem _ hid, hgp, hgv⟩
      | some dep_info =>
        rcases hv : get_version (getVersionResp dep.project_id) none with
          ⟨_ | dv, _ | df⟩
        · refine ⟨hcons, by simpa using Nat.le_succ_of_le h2, ?_⟩
          intro e he
          obtain ⟨id, hid, hgp, hgv⟩ := h3 e he
          exact ⟨id, List.mem_cons_of_mem _ hid, hgp, hgv⟩
        · refine ⟨hcons, by simpa using Nat.le_succ_of_le h2, ?_⟩
          intro e he
          obtain ⟨id, hid, hgp, hgv⟩ := h3 e he
          exact ⟨id, List.mem_cons_of_mem _ hid, hgp, hgv⟩
        · refine ⟨hcons, by simpa using Nat.le_succ_of_le h2, ?_⟩
          intro e he
          obtain ⟨id, hid, hgp, hgv⟩ := h3 e he
          exact ⟨id, List.mem_cons_of_mem _ hid, hgp, hgv⟩
        · refine hrec dv _ ⟨hcons, ?_, ?_⟩
          · simpa using Nat.succ_le_succ h2
          · intro e he
            rcases List.mem_append.mp he with hold | hnew
            · obtain ⟨id, hid, hgp, hgv⟩ := h3 e hold
              exact ⟨id, List.mem_cons_of_mem _ hid, hgp, hgv⟩
            · have : e = (dep_info, dv, df) := by simpa using hnew
              subst this
              exact ⟨dep.project_id, List.mem_cons_self _ _, hg, hv⟩
  · simp only [hreq, ne_eq, not_false_eq_true, if_true]
    exact ⟨h1, h2, h3⟩

/-- The loop preserves the invariant. -/
theorem depWalk_inv
    (getProject : String → Option ProjectInfo)
    (getVersionResp : String → Option (List RawVersion))
    (recurse : VersionInfo → DepState → DepState)
    (hrec : ∀ vi s, DepInv getProject getVersionResp s →
      DepInv getProject getVersionResp (recurse vi s)) :
    ∀ (deps : List DependencyInfo) (st : DepState),
      DepInv getProject getVersionResp st →
      DepInv getProject getVersionResp
        (depWalk getProject getVersionResp recurse deps st) := by
  intro deps
  induction deps with
  | nil => intro st h; exact h
  | cons dep rest ih =>
    intro st h
    exact ih _ (depStep_inv getProject getVersionResp recurse hrec dep st h)

/-- The whole recursive walk preserves the invariant. -/
theorem depRec_inv
    (getProject : String → Option ProjectInfo)
    (getVersionResp : String → Option (List RawVersion)) :
    ∀ (fuel : Nat) (deps : List DependencyInfo) (st : DepState),
      DepInv getProject getVersionResp st →
      DepInv getProject getVersionResp
        (depRec getProject getVersionResp fuel deps st) := by
  intro fuel
  induction fuel with
  | zero =>
    exact depWalk_inv getProject getVersionResp _ (fun vi s h => h)
  | succ f ih =>
    exact depWalk_inv getProject getVersionResp _
      (fun vi s h => ih vi.dependencies s h)

/-- Fuel irrelevance: once the fuel exceeds the number of table keys
not yet processed, the result of the walk no longer depends on it —
the mark-before-recurse rule bounds the recursion depth, so the
unbounded Python recursion terminates on every finite (possibly
cyclic) dependency graph. -/
theorem depRec_fuel_stable (getProject : String → Option ProjectInfo)
    (T : List (String × List RawVersion)) :
    ∀ (u : Nat) (deps : List DependencyInfo) (st : DepState) (n m : Nat),
      unprocessedKeys T st.processed ≤ u → u < n → u < m →
      depRec getProject (lookupVersions T) n deps st =
        depRec getProject (lookupVersions T) m deps st := by
  intro u
  induction u using Nat.strong_induction_on with
  | _ u IHu =>
    intro deps
    induction deps with
    | nil =>
      intro st n m hUK hn hm
      cases n with
      | zero => omega
      | succ n' =>
        cases m with
        | zero => omega
        | succ m' => rfl
    | cons dep rest IHrest =>
      intro st n m hUK hn hm
      cases n with
      | zero => omega
      | succ n' =>
        cases m with
        | zero => omega
        | succ m' =>
          simp only [depRec, depWalk]
          have hstep : depStep getProject (lookupVersions T)
              (fun vi s =>
                depRec getProject (lookupVersions T) n' vi.dependencies s)
              dep st =
              depStep getProject (lookupVersions T)
                (fun vi s =>
                  depRec getProject (lookupVersions T) m' vi.dependencies s)
                dep st := by
            simp only [depStep]
            by_cases hreq : dep.dependency_type = "required"
            · simp only [hreq, ne_eq, not_true_eq_false, if_false]
              by_cases hproc : dep.project_id ∈ st.processed
              · simp only [hproc, if_true]
              · simp only [hproc, if_false]
                cases hg : getProject dep.project_id with
                | none => rfl
                | some dep_info =>
                  rcases hv : get_version
                      (lookupVersions T dep.project_id) none with
                    ⟨_ | dv, _ | df⟩
                  · rfl
                  · rfl
                  · rfl
                  · have hkey : dep.project_id ∈ T.map Prod.fst := by
                      cases hl : lookupVersions T dep.project_id with
                      | none =>
                        rw [hl] at hv
                        exact absurd hv (by simp [get_version])
                      | some vs => exact lookupVersions_mem T _ vs hl
                    have hstrict : unprocessedKeys T
                        (dep.project_id :: st.processed) <
                        unprocessedKeys T st.processed :=
                      countP_notMem_strict _ _ _ hkey hproc
                    exact IHu (unprocessedKeys T
                        (dep.project_id :: st.processed))
                      (by omega) dv.dependencies
                      { st with
                        processed := dep.project_id :: st.processed
                        dependencies :=
                          st.dependencies ++ [(dep_info, dv, df)] }
                      n' m' (le_refl _) (by omega) (by omega)
            · simp only [hreq, ne_eq, not_false_eq_true, if_true]
          rw [hstep]
          have hsuffix := depStep_processed_suffix getProject
            (lookupVersions T)
            (fun vi s =>
              depRec getProject (lookupVersions T) m' vi.dependencies s)
            (fun vi s => depRec_processed_suffix getProject
              (lookupVersions T) m' vi.dependencies s)
            dep st
          obtain ⟨ext, hext⟩ := hsuffix
          have hUK2 : unprocessedKeys T
              (depStep getProject (lookupVersions T)
                (fun vi s =>
                  depRec getProject (lookupVersions T) m' vi.dependencies s)
                dep st).processed ≤ u := by
            refine le_trans (unprocessedKeys_mono T st.processed _ ?_) hUK
            intro x hx
            rw [hext]
            exact List.mem_append_right _ hx
          exact IHrest _ (n' + 1) (m' + 1) hUK2 hn hm

/-- C5: on every finite dependency graph — cyclic ones included —
`DependencyResolver.resolve` terminates (the result is independent of
any fuel exceeding the table size, so the recursion depth is bounded),
visits each project id at most once per top-level call (the processed
set, grown before each fetch/recursion, stays duplicate-free and
bounds the result list), every returned entry was successfully
fetched under some processed id (an unfetchable dependency is skipped
without aborting the walk), only `required`-kind dependencies are
followed, and the result list is built by appending each found
dependency before its own dependencies are explored. -/
theorem c5_dependency_resolution (getProject : String → Option ProjectInfo)
    (T : List (String × List RawVersion)) (root : VersionInfo) (n m : Nat)
    (hn : T.length < n) (hm : T.length < m) :
    depResolve getProject (lookupVersions T) n root =
      depResolve getProject (lookupVersions T) m root ∧
    (depResolve getProject (lookupVersions T) n root).processed.Nodup ∧
    (depResolve getProject (lookupVersions T) n root).dependencies.length ≤
      (depResolve getProject (lookupVersions T) n root).processed.length ∧
    (∀ e ∈ (depResolve getProject (lookupVersions T) n root).dependencies,
      ∃ id,
        id ∈ (depResolve getProject (lookupVersions T) n root).processed ∧
        getProject id = some e.1 ∧
        get_version (lookupVersions T id) none =
          (some e.2.1, some e.2.2)) ∧
    (∀ (fuel : Nat) (deps : List DependencyInfo) (st : DepState),
      (∀ d ∈ deps, d.dependency_type ≠ "required") →
      depRec getProject (lookupVersions T) fuel deps st = st) ∧
    (∀ (fuel : Nat) (deps : List DependencyInfo) (st : DepState), ∃ ext,
      (depRec getProject (lookupVersions T) fuel deps st).dependencies =
        st.dependencies ++ ext) := by
  have hinit : DepInv getProject (lookupVersions T)
      { processed := [], dependencies := [] } :=
    ⟨List.nodup_nil, Nat.le_refl 0, fun e he => absurd he (List.not_mem_nil e)⟩
  have hinv := depRec_inv getProject (lookupVersions T) n
    root.dependencies _ hinit
  refine ⟨?_, hinv.1, hinv.2.1, hinv.2.2, ?_, ?_⟩
  · exact depRec_fuel_stable getProject T T.length root.dependencies
      { processed := [], dependencies := [] } n m
      (unprocessedKeys_le T []) hn hm
  · intro fuel deps st h
    cases fuel with
    | zero => exact depWalk_no_required getProject (lookupVersions T) _ deps st h
    | succ f => exact depWalk_no_required getProject (lookupVersions T) _ deps st h
  · intro fuel deps st
    exact depRec_dependencies_suffix getProject (lookupVersions T) fuel deps st

/-- C5 witness: the spec's cyclic graph A requires B requires A,
reached from a root requiring A.  The walk terminates, visits A and B
once each, and returns them in pre-order. -/
theorem c5_witness :
    let pA : ProjectInfo := { id := "A", name := "a", title := "A"
                              description := "", project_type := "mod"
                              versions := [] }
    let pB : ProjectInfo := { id := "B", name := "b", title := "B"
                              description := "", project_type := "mod"
                              versions := [] }
    let vA : RawVersion := { id := "vA", version_number := "1", name := "A1"
                             files := [{ url := "uA", filename := "a.jar"
                                         size := 1, sha1 := none
                                         primary := true }]
                             dependencies := [{ project_id := "B"
                                                dependency_type := "required" }] }
    let vB : RawVersion := { id := "vB", version_number := "1", name := "B1"
                             files := [{ url := "uB", filename := "b.jar"
                                         size := 1, sha1 := none
                                         primary := true }]
                             dependencies := [{ project_id := "A"
                                                dependency_type := "required" }] }
    let T := [("A", [vA]), ("B", [vB])]
    let g : String → Option ProjectInfo := fun id =>
      if id = "A" then some pA else if id = "B" then some pB else none
    let root : VersionInfo := { id := "r", name := "root", version := "1"
                                files := []
                                dependencies := [{ project_id := "A"
                                                   dependency_type := "required" }] }
    depResolve g (lookupVersions T) 3 root =
      depResolve g (lookupVersions T) 4 root ∧
    (depResolve g (lookupVersions T) 3 root).processed.Nodup ∧
    (depResolve g (lookupVersions T) 3 root).processed = ["B", "A"] ∧
    ((depResolve g (lookupVersions T) 3 root).dependencies.map
      (fun e => e.1.id)) = ["A", "B"] := by
  intro pA pB vA vB T g root
  have h := c5_dependency_resolution g T root 3 4 (by decide) (by decide)
  exact ⟨h.1, h.2.1, by decide, by decide⟩
